import Mathlib

/-!
# BI_QuantumCircuit: the CHSH experiment of `lk_4Qubit.cpp` and `lk_BI.cpp`

Both drivers run the same pipeline on a 2-qubit register:
`prepare_all` → `gates(angle1, angle2)` → `getProbabilities` for `|00>` and `|11>` →
`getCor`, four times, and print `cor1 - cor2 + cor3 + cor4`.

The quantum intrinsics (`PrepZ`, `H`, `CNOT`, `RY`) and the simulator call
`getProbabilities` come from the vendor runtime and are not part of the sources; they
are modelled from the specification (state vector of `2^N` complex amplitudes, gate
library, probability extraction).  All arithmetic is exact: `double` is read as `ℝ`,
amplitudes are in `ℂ`, and `M_PI` is `π`.
-/

namespace BIQuantumCircuit

/-! ## Register and state vector -/

/-- Number of qubits of the register: `const int N = 2;`. -/
def N : Nat := 2

/-- Modelled from the spec: StateVector, the `2^N = 4` complex amplitudes of the register;
index `i` encodes the classical bit pattern, bit `k` of `i` being the value of qubit `k`. -/
abbrev StateVector := Fin 4 → ℂ

/-- Modelled from the spec: the value of qubit `k` in the classical bit pattern `i`
(bit `k` of `i`). -/
def qubitValue (i : Fin 4) (k : Fin 2) : Bool :=
  i.val.testBit k.val

/-- Modelled from the spec: the index that differs from `i` only in the bit of qubit `k`. -/
def flipQubit (i : Fin 4) (k : Fin 2) : Fin 4 :=
  Fin.ofNat (i.val ^^^ (1 <<< k.val))

/-- Modelled from the spec: the index of the pair of `i` for qubit `k` whose bit `k` is `b`. -/
def withQubit (i : Fin 4) (k : Fin 2) (b : Bool) : Fin 4 :=
  if qubitValue i k = b then i else flipQubit i k

/-- Modelled from the spec: `reset()`, amplitude 1 at index 0 and 0 elsewhere. -/
def reset : StateVector :=
  fun i => if i = 0 then 1 else 0

/-- Modelled from the spec: the sum of squared amplitude magnitudes of a state vector. -/
def totalProbability (ψ : StateVector) : ℝ :=
  ∑ i : Fin 4, Complex.normSq (ψ i)

/-! ## Gate library -/

/-- Modelled from the spec: a single-qubit gate, the 2×2 matrix `[[m00, m01], [m10, m11]]`. -/
structure Gate where
  m00 : ℂ
  m01 : ℂ
  m10 : ℂ
  m11 : ℂ

/-- Modelled from the spec: Hadamard, `1/√2 * [[1,1],[1,-1]]`. -/
noncomputable def Hadamard : Gate :=
  { m00 := ((1 / Real.sqrt 2 : ℝ) : ℂ) * 1
    m01 := ((1 / Real.sqrt 2 : ℝ) : ℂ) * 1
    m10 := ((1 / Real.sqrt 2 : ℝ) : ℂ) * 1
    m11 := ((1 / Real.sqrt 2 : ℝ) : ℂ) * (-1) }

/-- Modelled from the spec: Y-rotation by angle θ,
`[[cos(θ/2), -sin(θ/2)], [sin(θ/2), cos(θ/2)]]`. -/
noncomputable def RotationY (θ : ℝ) : Gate :=
  { m00 := ((Real.cos (θ / 2) : ℝ) : ℂ)
    m01 := ((-Real.sin (θ / 2) : ℝ) : ℂ)
    m10 := ((Real.sin (θ / 2) : ℝ) : ℂ)
    m11 := ((Real.cos (θ / 2) : ℝ) : ℂ) }

/-- Modelled from the spec: `applySingleQubitGate(gate, qubitIndex)`; every pair of amplitudes
`(a0, a1)` whose indices differ only in the bit of the qubit becomes
`(M00*a0 + M01*a1, M10*a0 + M11*a1)`. -/
def applySingleQubitGate (g : Gate) (k : Fin 2) (ψ : StateVector) : StateVector :=
  fun i =>
    let a0 := ψ (withQubit i k false)
    let a1 := ψ (withQubit i k true)
    if qubitValue i k then g.m10 * a0 + g.m11 * a1 else g.m00 * a0 + g.m01 * a1

/-- Modelled from the spec: `applyControlledGate` for CNOT; where the control bit is 1 the
amplitudes of the two indices differing in the target bit are exchanged, where it is 0 the
amplitude is untouched. -/
def applyControlledGate (control target : Fin 2) (ψ : StateVector) : StateVector :=
  fun i => if qubitValue i control then ψ (flipQubit i target) else ψ i

/-! ## Quantum intrinsics used by the kernels -/

/-- Modelled from the spec: the intrinsic `H(q[k])`, Hadamard applied to qubit `k`. -/
noncomputable def H (k : Fin 2) (ψ : StateVector) : StateVector :=
  applySingleQubitGate Hadamard k ψ

/-- Modelled from the spec: the intrinsic `CNOT(q[c], q[t])`. -/
def CNOT (c t : Fin 2) (ψ : StateVector) : StateVector :=
  applyControlledGate c t ψ

/-- Modelled from the spec: the intrinsic `RY(q[k], angle)`. -/
noncomputable def RY (k : Fin 2) (angle : ℝ) (ψ : StateVector) : StateVector :=
  applySingleQubitGate (RotationY angle) k ψ

/-! ## Basis labels, probability maps -/

/-- Modelled from the spec: BasisLabel, one classical outcome of the register, given by the
value read on qubit 0 and on qubit 1 (`|00>` is both 0, `|11>` is both 1). -/
structure QssIndex where
  q0 : Bool
  q1 : Bool
deriving DecidableEq

/-- Modelled from the spec: the amplitude index of a basis label (bit `k` is qubit `k`). -/
def QssIndex.index (l : QssIndex) : Fin 4 :=
  Fin.ofNat (l.q0.toNat + 2 * l.q1.toNat)

/-- Modelled from the spec: ProbabilityMap, `iqsdk::QssMap<double>`; the entries
`(label, probability)` in iteration order, keys unique. -/
abbrev QssMap := List (QssIndex × ℝ)

/-- Modelled from the spec: `extract(stateVector, basisLabels)`, the simulator call
`getProbabilities(qids, bases)` with `qids` the whole register: `|amplitude[index]|²` for each
requested label, one entry per distinct label. -/
def getProbabilities (ψ : StateVector) (bases : List QssIndex) : QssMap :=
  bases.dedup.map (fun l => (l, Complex.normSq (ψ l.index)))

/-- The constant `#define M_PI 3.14159265358979323846`, read as `π`. -/
noncomputable def M_PI : ℝ := Real.pi

/-- The values a driver prints: the four correlations and `S`. -/
structure Output where
  cor1 : ℝ
  cor2 : ℝ
  cor3 : ℝ
  cor4 : ℝ
  S : ℝ

/-! ## First driver: `lk_4Qubit.cpp` -/

namespace lk_4Qubit

/-- The kernel `prepare_all`: `PrepZ(q[0]); PrepZ(q[1]);` puts every qubit in `|0>`, which is
the reset of the register whatever its previous state. -/
def prepare_all (_ψ : StateVector) : StateVector :=
  reset

/-- The kernel `gates(angle1, angle2)`:
`H(q[0]); CNOT(q[0], q[1]); RY(q[0], angle1); RY(q[1], angle2);`. -/
noncomputable def gates (angle1 angle2 : ℝ) (ψ : StateVector) : StateVector :=
  let ψ := H 0 ψ
  let ψ := CNOT 0 1 ψ
  let ψ := RY 0 angle1 ψ
  RY 1 angle2 ψ

/-- The function `getCor`: adds the probability of every entry of the map and returns
`2 * total_probability - 1`. -/
def getCor (probability_map : QssMap) : ℝ :=
  let total_probability :=
    probability_map.foldl (fun total key_value => total + key_value.2) 0
  2 * total_probability - 1

/-- The label `state_a("|00>")`. -/
def state_a : QssIndex := { q0 := false, q1 := false }

/-- The label `state_b("|11>")`. -/
def state_b : QssIndex := { q0 := true, q1 := true }

/-- The vector `bases`, `state_a` then `state_b`. -/
def bases : List QssIndex := [state_a, state_b]

/-- The body of `main` after the declaration of the angles: four trials, each
`prepare_all(); gates(..); probability_map = getProbabilities(qids, bases); getCor(..)`,
on the one global register, and the printed `cor1 - cor2 + cor3 + cor4`. -/
noncomputable def trials (a1 b1 a2 b2 : ℝ) : Output :=
  let ψ := reset
  let ψ := prepare_all ψ
  let ψ := gates a1 b1 ψ
  let probability_map := getProbabilities ψ bases
  let cor1 := getCor probability_map
  let ψ := prepare_all ψ
  let ψ := gates a1 b2 ψ
  let probability_map := getProbabilities ψ bases
  let cor2 := getCor probability_map
  let ψ := prepare_all ψ
  let ψ := gates a2 b1 ψ
  let probability_map := getProbabilities ψ bases
  let cor3 := getCor probability_map
  let ψ := prepare_all ψ
  let ψ := gates a2 b2 ψ
  let probability_map := getProbabilities ψ bases
  let cor4 := getCor probability_map
  { cor1 := cor1, cor2 := cor2, cor3 := cor3, cor4 := cor4, S := cor1 - cor2 + cor3 + cor4 }

/-- The angle `double a1 = 0;`. -/
def a1 : ℝ := 0

/-- The angle `double b1 = M_PI/8;`. -/
noncomputable def b1 : ℝ := M_PI / 8

/-- The angle `double a2 = M_PI/4;`. -/
noncomputable def a2 : ℝ := M_PI / 4

/-- The angle `double b2 = 3*M_PI/8;`. -/
noncomputable def b2 : ℝ := 3 * M_PI / 8

/-- The function `main` with its compiled-in angles, on a ready noiseless device (the early
`return 1` of a device that is not ready computes nothing). -/
noncomputable def main : Output :=
  trials a1 b1 a2 b2

end lk_4Qubit

/-! ## Second driver: `lk_BI.cpp` -/

namespace lk_BI

/-- The kernel `prepare_all`: `PrepZ(q[0]); PrepZ(q[1]);` puts every qubit in `|0>`, which is
the reset of the register whatever its previous state. -/
def prepare_all (_ψ : StateVector) : StateVector :=
  reset

/-- The kernel `gates(angle1, angle2)`:
`H(q[0]); CNOT(q[0], q[1]); RY(q[0], angle1); RY(q[1], angle2);`
(the three statements after them are commented out in the source). -/
noncomputable def gates (angle1 angle2 : ℝ) (ψ : StateVector) : StateVector :=
  let ψ := H 0 ψ
  let ψ := CNOT 0 1 ψ
  let ψ := RY 0 angle1 ψ
  RY 1 angle2 ψ

/-- The function `getCor`: adds the probability of every entry of the map and returns
`2 * total_probability - 1`. -/
def getCor (probability_map : QssMap) : ℝ :=
  let total_probability :=
    probability_map.foldl (fun total key_value => total + key_value.2) 0
  2 * total_probability - 1

/-- The label `state_a("|00>")`. -/
def state_a : QssIndex := { q0 := false, q1 := false }

/-- The label `state_b("|11>")`. -/
def state_b : QssIndex := { q0 := true, q1 := true }

/-- The vector `bases`, `state_a` then `state_b`. -/
def bases : List QssIndex := [state_a, state_b]

/-- The body of `main` after the declaration of the angles: four trials, each
`prepare_all(); gates(..); probability_map = getProbabilities(qids, bases); getCor(..)`,
on the one global register, and the printed `cor1 - cor2 + cor3 + cor4`. -/
noncomputable def trials (a1 b1 a2 b2 : ℝ) : Output :=
  let ψ := reset
  let ψ := prepare_all ψ
  let ψ := gates a1 b1 ψ
  let probability_map := getProbabilities ψ bases
  let cor1 := getCor probability_map
  let ψ := prepare_all ψ
  let ψ := gates a1 b2 ψ
  let probability_map := getProbabilities ψ bases
  let cor2 := getCor probability_map
  let ψ := prepare_all ψ
  let ψ := gates a2 b1 ψ
  let probability_map := getProbabilities ψ bases
  let cor3 := getCor probability_map
  let ψ := prepare_all ψ
  let ψ := gates a2 b2 ψ
  let probability_map := getProbabilities ψ bases
  let cor4 := getCor probability_map
  { cor1 := cor1, cor2 := cor2, cor3 := cor3, cor4 := cor4, S := cor1 - cor2 + cor3 + cor4 }

/-- The angle `double a1 = 3*M_PI/4;`. -/
noncomputable def a1 : ℝ := 3 * M_PI / 4

/-- The angle `double b1 = M_PI/2;`. -/
noncomputable def b1 : ℝ := M_PI / 2

/-- The angle `double a2 = M_PI/4;`. -/
noncomputable def a2 : ℝ := M_PI / 4

/-- The angle `double b2 = 0;`. -/
def b2 : ℝ := 0

/-- The function `main` with its compiled-in angles, on a ready noiseless device (the early
`return 1` of a device that is not ready computes nothing). -/
noncomputable def main : Output :=
  trials a1 b1 a2 b2

end lk_BI

/-- The correlation of one trial as `main` computes it: `prepare_all(); gates(angle1, angle2);
probability_map = getProbabilities(qids, bases); getCor(probability_map)`, with rotation
`angle1` on qubit 0 and `angle2` on qubit 1 (the kernels are the same in the two drivers). -/
noncomputable def trialCorrelation (angle1 angle2 : ℝ) : ℝ :=
  lk_4Qubit.getCor
    (getProbabilities (lk_4Qubit.gates angle1 angle2 (lk_4Qubit.prepare_all reset))
      lk_4Qubit.bases)

/-! ## Component form of the gates -/

theorem applySingleQubitGate_zero (g : Gate) (ψ : StateVector) :
    applySingleQubitGate g 0 ψ =
      ![g.m00 * ψ 0 + g.m01 * ψ 1, g.m10 * ψ 0 + g.m11 * ψ 1,
        g.m00 * ψ 2 + g.m01 * ψ 3, g.m10 * ψ 2 + g.m11 * ψ 3] := by
  funext i
  fin_cases i <;> rfl

theorem applySingleQubitGate_one (g : Gate) (ψ : StateVector) :
    applySingleQubitGate g 1 ψ =
      ![g.m00 * ψ 0 + g.m01 * ψ 2, g.m00 * ψ 1 + g.m01 * ψ 3,
        g.m10 * ψ 0 + g.m11 * ψ 2, g.m10 * ψ 1 + g.m11 * ψ 3] := by
  funext i
  fin_cases i <;> rfl

theorem CNOT_zero_one (ψ : StateVector) : CNOT 0 1 ψ = ![ψ 0, ψ 3, ψ 2, ψ 1] := by
  funext i
  fin_cases i <;> rfl

theorem CNOT_one_zero (ψ : StateVector) : CNOT 1 0 ψ = ![ψ 0, ψ 1, ψ 3, ψ 2] := by
  funext i
  fin_cases i <;> rfl

theorem reset_eq : reset = ![1, 0, 0, 0] := by
  funext i
  fin_cases i <;> rfl

theorem totalProbability_eq (ψ : StateVector) :
    totalProbability ψ =
      Complex.normSq (ψ 0) + Complex.normSq (ψ 1) + Complex.normSq (ψ 2)
        + Complex.normSq (ψ 3) := by
  simp [totalProbability, Fin.sum_univ_four]

/-- A gate with real entries whose columns are orthonormal keeps the squared magnitude
of every amplitude pair. -/
theorem normSq_pair (p q u v : ℝ) (a b : ℂ) (hp : p * p + u * u = 1) (hq : q * q + v * v = 1)
    (hpq : p * q + u * v = 0) :
    Complex.normSq ((p : ℂ) * a + (q : ℂ) * b) + Complex.normSq ((u : ℂ) * a + (v : ℂ) * b)
      = Complex.normSq a + Complex.normSq b := by
  simp only [Complex.normSq_apply, Complex.add_re, Complex.add_im, Complex.mul_re,
    Complex.mul_im, Complex.ofReal_re, Complex.ofReal_im, zero_mul, sub_zero, add_zero]
  linear_combination (a.re * a.re + a.im * a.im) * hp + (b.re * b.re + b.im * b.im) * hq
    + 2 * (a.re * b.re + a.im * b.im) * hpq

theorem inv_sqrt_two_sq : (1 / Real.sqrt 2) * (1 / Real.sqrt 2) = (1 / 2 : ℝ) := by
  have h : Real.sqrt 2 * Real.sqrt 2 = 2 := Real.mul_self_sqrt (by norm_num)
  field_simp

theorem Hadamard_pair (a b : ℂ) :
    Complex.normSq (Hadamard.m00 * a + Hadamard.m01 * b)
        + Complex.normSq (Hadamard.m10 * a + Hadamard.m11 * b)
      = Complex.normSq a + Complex.normSq b := by
  have h := inv_sqrt_two_sq
  have e := normSq_pair (1 / Real.sqrt 2) (1 / Real.sqrt 2) (1 / Real.sqrt 2)
    (-(1 / Real.sqrt 2)) a b (by linarith) (by linarith) (by linarith)
  simpa [Hadamard] using e

theorem RotationY_pair (θ : ℝ) (a b : ℂ) :
    Complex.normSq ((RotationY θ).m00 * a + (RotationY θ).m01 * b)
        + Complex.normSq ((RotationY θ).m10 * a + (RotationY θ).m11 * b)
      = Complex.normSq a + Complex.normSq b := by
  have h := Real.sin_sq_add_cos_sq (θ / 2)
  have e := normSq_pair (Real.cos (θ / 2)) (-Real.sin (θ / 2)) (Real.sin (θ / 2))
    (Real.cos (θ / 2)) a b (by linarith) (by linarith) (by ring)
  simpa [RotationY] using e

theorem totalProbability_H (k : Fin 2) (ψ : StateVector) :
    totalProbability (H k ψ) = totalProbability ψ := by
  fin_cases k
  · show totalProbability (H 0 ψ) = totalProbability ψ
    simp only [H, applySingleQubitGate_zero, totalProbability_eq, Matrix.cons_val_zero,
      Matrix.cons_val_one, Matrix.head_cons, Matrix.cons_val_two, Matrix.tail_cons,
      Matrix.cons_val_three]
    linarith [Hadamard_pair (ψ 0) (ψ 1), Hadamard_pair (ψ 2) (ψ 3)]
  · show totalProbability (H 1 ψ) = totalProbability ψ
    simp only [H, applySingleQubitGate_one, totalProbability_eq, Matrix.cons_val_zero,
      Matrix.cons_val_one, Matrix.head_cons, Matrix.cons_val_two, Matrix.tail_cons,
      Matrix.cons_val_three]
    linarith [Hadamard_pair (ψ 0) (ψ 2), Hadamard_pair (ψ 1) (ψ 3)]

theorem totalProbability_RY (k : Fin 2) (θ : ℝ) (ψ : StateVector) :
    totalProbability (RY k θ ψ) = totalProbability ψ := by
  fin_cases k
  · show totalProbability (RY 0 θ ψ) = totalProbability ψ
    simp only [RY, applySingleQubitGate_zero, totalProbability_eq, Matrix.cons_val_zero,
      Matrix.cons_val_one, Matrix.head_cons, Matrix.cons_val_two, Matrix.tail_cons,
      Matrix.cons_val_three]
    linarith [RotationY_pair θ (ψ 0) (ψ 1), RotationY_pair θ (ψ 2) (ψ 3)]
  · show totalProbability (RY 1 θ ψ) = totalProbability ψ
    simp only [RY, applySingleQubitGate_one, totalProbability_eq, Matrix.cons_val_zero,
      Matrix.cons_val_one, Matrix.head_cons, Matrix.cons_val_two, Matrix.tail_cons,
      Matrix.cons_val_three]
    linarith [RotationY_pair θ (ψ 0) (ψ 2), RotationY_pair θ (ψ 1) (ψ 3)]

theorem totalProbability_CNOT_zero_one (ψ : StateVector) :
    totalProbability (CNOT 0 1 ψ) = totalProbability ψ := by
  simp only [CNOT_zero_one, totalProbability_eq, Matrix.cons_val_zero,
    Matrix.cons_val_one, Matrix.head_cons, Matrix.cons_val_two, Matrix.tail_cons,
    Matrix.cons_val_three]
  ring

theorem totalProbability_reset : totalProbability reset = 1 := by
  simp [totalProbability_eq, reset_eq]

/-! ## Closed form of one trial -/

theorem getProbabilities_bases (ψ : StateVector) :
    getProbabilities ψ lk_4Qubit.bases =
      [(lk_4Qubit.state_a, Complex.normSq (ψ 0)), (lk_4Qubit.state_b, Complex.normSq (ψ 3))] := by
  have h : lk_4Qubit.bases.dedup = [lk_4Qubit.state_a, lk_4Qubit.state_b] := by decide
  simp only [getProbabilities, h, List.map_cons, List.map_nil]
  rfl

theorem gates_reset_zero (θa θb : ℝ) :
    lk_4Qubit.gates θa θb reset 0 =
      (((1 / Real.sqrt 2) * Real.cos ((θa - θb) / 2) : ℝ) : ℂ) := by
  have e : (θa - θb) / 2 = θa / 2 - θb / 2 := by ring
  rw [e, Real.cos_sub]
  simp only [lk_4Qubit.gates, H, RY, applySingleQubitGate_zero, applySingleQubitGate_one,
    CNOT_zero_one, reset_eq, Hadamard, RotationY]
  simp
  ring

theorem gates_reset_three (θa θb : ℝ) :
    lk_4Qubit.gates θa θb reset 3 =
      (((1 / Real.sqrt 2) * Real.cos ((θa - θb) / 2) : ℝ) : ℂ) := by
  have e : (θa - θb) / 2 = θa / 2 - θb / 2 := by ring
  rw [e, Real.cos_sub]
  simp only [lk_4Qubit.gates, H, RY, applySingleQubitGate_zero, applySingleQubitGate_one,
    CNOT_zero_one, reset_eq, Hadamard, RotationY]
  simp
  ring

theorem getCor_pair (l0 l1 : QssIndex) (p0 p1 : ℝ) :
    lk_4Qubit.getCor [(l0, p0), (l1, p1)] = 2 * (p0 + p1) - 1 := by
  simp [lk_4Qubit.getCor]

theorem trial_closed_form (θa θb : ℝ) (ψ : StateVector) :
    lk_4Qubit.getCor
        (getProbabilities (lk_4Qubit.gates θa θb (lk_4Qubit.prepare_all ψ)) lk_4Qubit.bases)
      = Real.cos (θa - θb) := by
  rw [getProbabilities_bases, getCor_pair, lk_4Qubit.prepare_all, gates_reset_zero,
    gates_reset_three, Complex.normSq_ofReal]
  have h := inv_sqrt_two_sq
  have hc := Real.cos_sq ((θa - θb) / 2)
  have e : 2 * ((θa - θb) / 2) = θa - θb := by ring
  rw [e] at hc
  set r := 1 / Real.sqrt 2
  set c := Real.cos ((θa - θb) / 2)
  have : r * c * (r * c) = (r * r) * c ^ 2 := by ring
  rw [this, h]
  linarith

theorem trialCorrelation_eq (θa θb : ℝ) : trialCorrelation θa θb = Real.cos (θa - θb) :=
  trial_closed_form θa θb reset

theorem lk_4Qubit_trials_eq (a1 b1 a2 b2 : ℝ) :
    lk_4Qubit.trials a1 b1 a2 b2 =
      { cor1 := Real.cos (a1 - b1), cor2 := Real.cos (a1 - b2), cor3 := Real.cos (a2 - b1),
        cor4 := Real.cos (a2 - b2),
        S := Real.cos (a1 - b1) - Real.cos (a1 - b2) + Real.cos (a2 - b1)
          + Real.cos (a2 - b2) } := by
  simp only [lk_4Qubit.trials, trial_closed_form]

theorem lk_BI_trials_eq (a1 b1 a2 b2 : ℝ) :
    lk_BI.trials a1 b1 a2 b2 =
      { cor1 := Real.cos (a1 - b1), cor2 := Real.cos (a1 - b2), cor3 := Real.cos (a2 - b1),
        cor4 := Real.cos (a2 - b2),
        S := Real.cos (a1 - b1) - Real.cos (a1 - b2) + Real.cos (a2 - b1)
          + Real.cos (a2 - b2) } :=
  lk_4Qubit_trials_eq a1 b1 a2 b2

/-! ## Numerical facts about the compiled-in angles -/

theorem sqrt_two_bounds : (1.4 : ℝ) < Real.sqrt 2 ∧ Real.sqrt 2 < 1.5 := by
  have h : Real.sqrt 2 * Real.sqrt 2 = 2 := Real.mul_self_sqrt (by norm_num)
  have h0 : 0 ≤ Real.sqrt 2 := Real.sqrt_nonneg 2
  constructor <;> nlinarith

theorem cos_three_pi_div_four : Real.cos (3 * Real.pi / 4) = -(Real.sqrt 2 / 2) := by
  have e : 3 * Real.pi / 4 = Real.pi - Real.pi / 4 := by ring
  rw [e, Real.cos_pi_sub, Real.cos_pi_div_four]

theorem cos_pi_div_eight_bounds :
    (0.92 : ℝ) < Real.cos (Real.pi / 8) ∧ Real.cos (Real.pi / 8) ≤ 1 := by
  have hsq := Real.cos_sq (Real.pi / 8)
  have e : 2 * (Real.pi / 8) = Real.pi / 4 := by ring
  rw [e, Real.cos_pi_div_four] at hsq
  have hpos : 0 < Real.cos (Real.pi / 8) :=
    Real.cos_pos_of_mem_Ioo ⟨by linarith [Real.pi_pos], by linarith [Real.pi_pos]⟩
  obtain ⟨hlo, _⟩ := sqrt_two_bounds
  exact ⟨by nlinarith, Real.cos_le_one _⟩

theorem cos_three_pi_div_eight_bounds :
    (0.35 : ℝ) < Real.cos (3 * Real.pi / 8) ∧ Real.cos (3 * Real.pi / 8) < 0.4 := by
  have hsq := Real.cos_sq (3 * Real.pi / 8)
  have e : 2 * (3 * Real.pi / 8) = 3 * Real.pi / 4 := by ring
  rw [e, cos_three_pi_div_four] at hsq
  have hpos : 0 < Real.cos (3 * Real.pi / 8) :=
    Real.cos_pos_of_mem_Ioo ⟨by linarith [Real.pi_pos], by linarith [Real.pi_pos]⟩
  obtain ⟨hlo, hhi⟩ := sqrt_two_bounds
  constructor <;> nlinarith

theorem lk_4Qubit_main_eq :
    lk_4Qubit.main =
      { cor1 := Real.cos (Real.pi / 8), cor2 := Real.cos (3 * Real.pi / 8),
        cor3 := Real.cos (Real.pi / 8), cor4 := Real.cos (Real.pi / 8),
        S := 3 * Real.cos (Real.pi / 8) - Real.cos (3 * Real.pi / 8) } := by
  have e1 : (0 : ℝ) - Real.pi / 8 = -(Real.pi / 8) := by ring
  have e2 : (0 : ℝ) - 3 * Real.pi / 8 = -(3 * Real.pi / 8) := by ring
  have e3 : Real.pi / 4 - Real.pi / 8 = Real.pi / 8 := by ring
  have e4 : Real.pi / 4 - 3 * Real.pi / 8 = -(Real.pi / 8) := by ring
  simp only [lk_4Qubit.main, lk_4Qubit_trials_eq, lk_4Qubit.a1, lk_4Qubit.b1, lk_4Qubit.a2,
    lk_4Qubit.b2, M_PI, e1, e2, e3, e4, Real.cos_neg]
  congr 1
  ring

theorem lk_BI_main_eq :
    lk_BI.main =
      { cor1 := Real.sqrt 2 / 2, cor2 := -(Real.sqrt 2 / 2), cor3 := Real.sqrt 2 / 2,
        cor4 := Real.sqrt 2 / 2, S := 2 * Real.sqrt 2 } := by
  have e1 : 3 * Real.pi / 4 - Real.pi / 2 = Real.pi / 4 := by ring
  have e2 : 3 * Real.pi / 4 - 0 = 3 * Real.pi / 4 := by ring
  have e3 : Real.pi / 4 - Real.pi / 2 = -(Real.pi / 4) := by ring
  have e4 : Real.pi / 4 - 0 = Real.pi / 4 := by ring
  simp only [lk_BI.main, lk_BI_trials_eq, lk_BI.a1, lk_BI.b1, lk_BI.a2,
    lk_BI.b2, M_PI, e1, e2, e3, e4, Real.cos_neg, cos_three_pi_div_four,
    Real.cos_pi_div_four]
  congr 1
  ring

/-- The CHSH combination of the cosines of four angle differences is at most `2√2` in
absolute value. -/
theorem chsh_cos_bound (a1 b1 a2 b2 : ℝ) :
    |Real.cos (a1 - b1) - Real.cos (a1 - b2) + Real.cos (a2 - b1) + Real.cos (a2 - b2)|
      ≤ 2 * Real.sqrt 2 := by
  simp only [Real.cos_sub]
  have h1 := Real.sin_sq_add_cos_sq a1
  have h2 := Real.sin_sq_add_cos_sq a2
  have h3 := Real.sin_sq_add_cos_sq b1
  have h4 := Real.sin_sq_add_cos_sq b2
  set x1 := Real.cos a1
  set y1 := Real.sin a1
  set x2 := Real.cos a2
  set y2 := Real.sin a2
  set c1 := Real.cos b1
  set s1 := Real.sin b1
  set c2 := Real.cos b2
  set s2 := Real.sin b2
  have iA : (x1 * (c1 - c2) + y1 * (s1 - s2)) ^ 2 + (x1 * (s1 - s2) - y1 * (c1 - c2)) ^ 2
      = (y1 ^ 2 + x1 ^ 2) * ((c1 - c2) ^ 2 + (s1 - s2) ^ 2) := by ring
  have iB : (x2 * (c1 + c2) + y2 * (s1 + s2)) ^ 2 + (x2 * (s1 + s2) - y2 * (c1 + c2)) ^ 2
      = (y2 ^ 2 + x2 ^ 2) * ((c1 + c2) ^ 2 + (s1 + s2) ^ 2) := by ring
  rw [h1, one_mul] at iA
  rw [h2, one_mul] at iB
  have hPQ : ((c1 - c2) ^ 2 + (s1 - s2) ^ 2) + ((c1 + c2) ^ 2 + (s1 + s2) ^ 2) = 4 := by
    linear_combination 2 * h3 + 2 * h4
  have hAB : x1 * c1 + y1 * s1 - (x1 * c2 + y1 * s2) + (x2 * c1 + y2 * s1)
      + (x2 * c2 + y2 * s2)
      = (x1 * (c1 - c2) + y1 * (s1 - s2)) + (x2 * (c1 + c2) + y2 * (s1 + s2)) := by ring
  have hS : (x1 * c1 + y1 * s1 - (x1 * c2 + y1 * s2) + (x2 * c1 + y2 * s1)
      + (x2 * c2 + y2 * s2)) ^ 2 ≤ 8 := by
    rw [hAB]
    generalize x1 * (c1 - c2) + y1 * (s1 - s2) = A at iA ⊢
    generalize x2 * (c1 + c2) + y2 * (s1 + s2) = B at iB ⊢
    have hA := sq_nonneg (x1 * (s1 - s2) - y1 * (c1 - c2))
    have hB := sq_nonneg (x2 * (s1 + s2) - y2 * (c1 + c2))
    have hD := sq_nonneg (A - B)
    have hE : (A + B) ^ 2 = 2 * A ^ 2 + 2 * B ^ 2 - (A - B) ^ 2 := by ring
    rw [hE]
    linarith
  have h8 : Real.sqrt 8 = 2 * Real.sqrt 2 := by
    have e : (8 : ℝ) = 2 ^ 2 * 2 := by norm_num
    rw [e, Real.sqrt_mul (by norm_num), Real.sqrt_sq (by norm_num)]
  rw [← h8]
  exact Real.abs_le_sqrt hS

/-! ## Round trips -/

theorem inv_sqrt_two_mul_self :
    ((1 / Real.sqrt 2 : ℝ) : ℂ) * ((1 / Real.sqrt 2 : ℝ) : ℂ) = 1 / 2 := by
  rw [← Complex.ofReal_mul, inv_sqrt_two_sq]
  norm_num

theorem H_H_zero (ψ : StateVector) : H 0 (H 0 ψ) = ψ := by
  have hc := inv_sqrt_two_mul_self
  funext i
  fin_cases i <;>
  simp only [H, applySingleQubitGate_zero, Hadamard, Matrix.cons_val_zero,
      Matrix.cons_val_one, Matrix.head_cons, Matrix.cons_val_two, Matrix.tail_cons,
      Matrix.cons_val_three, Fin.zero_eta, Fin.mk_one, Fin.reduceFinMk, Fin.isValue]
  · linear_combination (2 * ψ 0) * hc
  · linear_combination (2 * ψ 1) * hc
  · linear_combination (2 * ψ 2) * hc
  · linear_combination (2 * ψ 3) * hc

theorem H_H_one (ψ : StateVector) : H 1 (H 1 ψ) = ψ := by
  have hc := inv_sqrt_two_mul_self
  funext i
  fin_cases i <;>
  simp only [H, applySingleQubitGate_one, Hadamard, Matrix.cons_val_zero,
      Matrix.cons_val_one, Matrix.head_cons, Matrix.cons_val_two, Matrix.tail_cons,
      Matrix.cons_val_three, Fin.zero_eta, Fin.mk_one, Fin.reduceFinMk, Fin.isValue]
  · linear_combination (2 * ψ 0) * hc
  · linear_combination (2 * ψ 1) * hc
  · linear_combination (2 * ψ 2) * hc
  · linear_combination (2 * ψ 3) * hc

theorem CNOT_CNOT_zero_one (ψ : StateVector) : CNOT 0 1 (CNOT 0 1 ψ) = ψ := by
  funext i
  fin_cases i <;> rfl

theorem CNOT_CNOT_one_zero (ψ : StateVector) : CNOT 1 0 (CNOT 1 0 ψ) = ψ := by
  funext i
  fin_cases i <;> rfl

/-- The sum that `getCor` accumulates is the sum of the probabilities of the map. -/
theorem foldl_total (m : QssMap) (t : ℝ) :
    m.foldl (fun total key_value => total + key_value.2) t = t + (m.map Prod.snd).sum := by
  induction m generalizing t with
  | nil => simp
  | cons e m ih => simp [List.foldl_cons, ih, add_assoc]

/-- The bound of `getCor` for a map of any number of entries: non-negative probabilities
that add up to at most 1 give a value in `[-1, 1]`. -/
theorem getCor_bound_of_total (m : QssMap) (hnn : ∀ e ∈ m, 0 ≤ e.2)
    (hsum : (m.map Prod.snd).sum ≤ 1) :
    -1 ≤ lk_4Qubit.getCor m ∧ lk_4Qubit.getCor m ≤ 1 := by
  have h0 : 0 ≤ (m.map Prod.snd).sum := by
    apply List.sum_nonneg
    intro x hx
    obtain ⟨e, he, rfl⟩ := List.mem_map.1 hx
    exact hnn e he
  simp only [lk_4Qubit.getCor, foldl_total, zero_add]
  constructor <;> linarith

/-! ## The claims -/

/-- Claim C1 (amended): for all real angles `θ_a`, `θ_b`, the gate sequence of `gates` on the
reset state, followed by the probabilities of `|00>` and `|11>` and by `getCor`, yields the
correlation `cos(θ_a - θ_b)`; in particular `θ_a = 0`, `θ_b = π/8` gives `cos(π/8)`. -/
theorem C1_trial_correlation_is_cos_sub :
    (∀ θa θb : ℝ,
      lk_4Qubit.getCor
          (getProbabilities (lk_4Qubit.gates θa θb (lk_4Qubit.prepare_all reset))
            lk_4Qubit.bases)
        = Real.cos (θa - θb))
    ∧ lk_4Qubit.getCor
          (getProbabilities (lk_4Qubit.gates 0 (Real.pi / 8) (lk_4Qubit.prepare_all reset))
            lk_4Qubit.bases)
        = Real.cos (Real.pi / 8) := by
  refine ⟨fun θa θb => trial_closed_form θa θb reset, ?_⟩
  rw [trial_closed_form, zero_sub, Real.cos_neg]

/-- Claim C1 as stated fails: at `θ_a = 0`, `θ_b = π/8` the correlation of the trial is
neither `cos(2·(θ_a - θ_b))` nor `cos(π/4)`. -/
theorem C1_cos_two_mul_counterexample :
    lk_4Qubit.getCor
        (getProbabilities (lk_4Qubit.gates 0 (Real.pi / 8) (lk_4Qubit.prepare_all reset))
          lk_4Qubit.bases)
      ≠ Real.cos (2 * (0 - Real.pi / 8))
    ∧ lk_4Qubit.getCor
        (getProbabilities (lk_4Qubit.gates 0 (Real.pi / 8) (lk_4Qubit.prepare_all reset))
          lk_4Qubit.bases)
      ≠ Real.cos (Real.pi / 4) := by
  have e : 2 * -(Real.pi / 8) = -(Real.pi / 4) := by ring
  rw [trial_closed_form, zero_sub, Real.cos_neg, e, Real.cos_neg, Real.cos_pi_div_four]
  have h := cos_pi_div_eight_bounds.1
  have h2 := sqrt_two_bounds.2
  constructor <;> intro hEq <;> linarith

/-- Claim C2: `getCor` applied to a probability map holding exactly the two agree outcomes
`|00>` and `|11>` with probabilities `p00` and `p11` returns `2*(p00 + p11) - 1`, and the
function is the same in both drivers. -/
theorem C2_getCor_two_outcomes :
    lk_4Qubit.getCor = lk_BI.getCor
    ∧ ∀ p00 p11 : ℝ,
      lk_4Qubit.getCor [(lk_4Qubit.state_a, p00), (lk_4Qubit.state_b, p11)]
          = 2 * (p00 + p11) - 1
      ∧ lk_BI.getCor [(lk_BI.state_a, p00), (lk_BI.state_b, p11)] = 2 * (p00 + p11) - 1 :=
  ⟨rfl, fun p00 p11 => ⟨getCor_pair _ _ p00 p11, getCor_pair _ _ p00 p11⟩⟩

/-- Claim C3, evaluated on the code: in both drivers `cor2`, printed as `E(a',b)` and
subtracted in `S`, is the correlation of the trial with `a1` on qubit 0 and `b2` on qubit 1,
not the one with `a2` and `b1`; `cor3`, printed as `E(a,b')`, is the correlation of the trial
with `a2` and `b1`, not the one with `a1` and `b2`; and `S` differs from
`E(a,b) - E(a',b) + E(a,b') + E(a',b')`. -/
theorem C3_second_trial_is_a1_b2 :
    (lk_4Qubit.main.cor2 = trialCorrelation lk_4Qubit.a1 lk_4Qubit.b2
      ∧ lk_4Qubit.main.cor2 ≠ trialCorrelation lk_4Qubit.a2 lk_4Qubit.b1
      ∧ lk_4Qubit.main.cor3 = trialCorrelation lk_4Qubit.a2 lk_4Qubit.b1
      ∧ lk_4Qubit.main.cor3 ≠ trialCorrelation lk_4Qubit.a1 lk_4Qubit.b2
      ∧ lk_4Qubit.main.S ≠
          trialCorrelation lk_4Qubit.a1 lk_4Qubit.b1 - trialCorrelation lk_4Qubit.a2 lk_4Qubit.b1
            + trialCorrelation lk_4Qubit.a1 lk_4Qubit.b2
            + trialCorrelation lk_4Qubit.a2 lk_4Qubit.b2)
    ∧ (lk_BI.main.cor2 = trialCorrelation lk_BI.a1 lk_BI.b2
      ∧ lk_BI.main.cor2 ≠ trialCorrelation lk_BI.a2 lk_BI.b1
      ∧ lk_BI.main.cor3 = trialCorrelation lk_BI.a2 lk_BI.b1
      ∧ lk_BI.main.cor3 ≠ trialCorrelation lk_BI.a1 lk_BI.b2
      ∧ lk_BI.main.S ≠
          trialCorrelation lk_BI.a1 lk_BI.b1 - trialCorrelation lk_BI.a2 lk_BI.b1
            + trialCorrelation lk_BI.a1 lk_BI.b2 + trialCorrelation lk_BI.a2 lk_BI.b2) := by
  have c8 := cos_pi_div_eight_bounds
  have c38 := cos_three_pi_div_eight_bounds
  have s2 := sqrt_two_bounds
  have e1 : (0 : ℝ) - Real.pi / 8 = -(Real.pi / 8) := by ring
  have e2 : (0 : ℝ) - 3 * Real.pi / 8 = -(3 * Real.pi / 8) := by ring
  have e3 : Real.pi / 4 - Real.pi / 8 = Real.pi / 8 := by ring
  have e4 : Real.pi / 4 - 3 * Real.pi / 8 = -(Real.pi / 8) := by ring
  have f1 : 3 * Real.pi / 4 - Real.pi / 2 = Real.pi / 4 := by ring
  have f2 : 3 * Real.pi / 4 - 0 = 3 * Real.pi / 4 := by ring
  have f3 : Real.pi / 4 - Real.pi / 2 = -(Real.pi / 4) := by ring
  have f4 : Real.pi / 4 - 0 = Real.pi / 4 := by ring
  constructor
  · rw [lk_4Qubit_main_eq]
    simp only [trialCorrelation_eq, lk_4Qubit.a1, lk_4Qubit.b1, lk_4Qubit.a2, lk_4Qubit.b2,
      M_PI, e1, e2, e3, e4, Real.cos_neg]
    refine ⟨trivial, ?_, trivial, ?_, ?_⟩ <;> intro hEq <;> linarith
  · rw [lk_BI_main_eq]
    simp only [trialCorrelation_eq, lk_BI.a1, lk_BI.b1, lk_BI.a2, lk_BI.b2,
      M_PI, f1, f2, f3, f4, Real.cos_neg, cos_three_pi_div_four, Real.cos_pi_div_four]
    refine ⟨trivial, ?_, trivial, ?_, ?_⟩ <;> intro hEq <;> linarith

/-- Claim C4 (amended): with the first driver's angles `a1 = 0`, `b1 = π/8`, `a2 = π/4`,
`b2 = 3π/8`, the four trials give `cor1 = cos(π/8)`, `cor2 = cos(3π/8)`, `cor3 = cos(π/8)`,
`cor4 = cos(π/8)`, and `S = cor1 - cor2 + cor3 + cor4 = 3·cos(π/8) - cos(3π/8)`. -/
theorem C4_first_driver_values :
    lk_4Qubit.main.cor1 = Real.cos (Real.pi / 8)
    ∧ lk_4Qubit.main.cor2 = Real.cos (3 * Real.pi / 8)
    ∧ lk_4Qubit.main.cor3 = Real.cos (Real.pi / 8)
    ∧ lk_4Qubit.main.cor4 = Real.cos (Real.pi / 8)
    ∧ lk_4Qubit.main.S
        = lk_4Qubit.main.cor1 - lk_4Qubit.main.cor2 + lk_4Qubit.main.cor3
          + lk_4Qubit.main.cor4
    ∧ lk_4Qubit.main.S = 3 * Real.cos (Real.pi / 8) - Real.cos (3 * Real.pi / 8) := by
  rw [lk_4Qubit_main_eq]
  refine ⟨rfl, rfl, rfl, rfl, ?_, rfl⟩
  show 3 * Real.cos (Real.pi / 8) - Real.cos (3 * Real.pi / 8)
    = Real.cos (Real.pi / 8) - Real.cos (3 * Real.pi / 8) + Real.cos (Real.pi / 8)
      + Real.cos (Real.pi / 8)
  ring

/-- Claim C4 as stated fails: in the first driver none of `cor1`, `cor2`, `cor3`, `cor4` has
the value the claim gives (`cos(π/4)`, `cos(3π/4)`, `cos(π/4)`, `cos(π/4)`), and `S` is
not `2√2`. -/
theorem C4_two_sqrt_two_counterexample :
    lk_4Qubit.main.cor1 ≠ Real.cos (Real.pi / 4)
    ∧ lk_4Qubit.main.cor2 ≠ Real.cos (3 * Real.pi / 4)
    ∧ lk_4Qubit.main.cor3 ≠ Real.cos (Real.pi / 4)
    ∧ lk_4Qubit.main.cor4 ≠ Real.cos (Real.pi / 4)
    ∧ lk_4Qubit.main.S ≠ 2 * Real.sqrt 2 := by
  have c8 := cos_pi_div_eight_bounds
  have c38 := cos_three_pi_div_eight_bounds
  have s2 := sqrt_two_bounds
  rw [lk_4Qubit_main_eq, cos_three_pi_div_four, Real.cos_pi_div_four]
  refine ⟨?_, ?_, ?_, ?_, ?_⟩ <;> intro hEq <;> simp only at hEq <;> linarith

/-- Claim C5: with the first driver's compiled-in angles, the value
`S = cor1 - cor2 + cor3 + cor4` computed from the four trials satisfies `|S| > 2`. -/
theorem C5_first_driver_violates_bell :
    lk_4Qubit.main.S
        = lk_4Qubit.main.cor1 - lk_4Qubit.main.cor2 + lk_4Qubit.main.cor3
          + lk_4Qubit.main.cor4
    ∧ 2 < |lk_4Qubit.main.S| := by
  have c8 := cos_pi_div_eight_bounds
  have c38 := cos_three_pi_div_eight_bounds
  refine ⟨rfl, ?_⟩
  rw [lk_4Qubit_main_eq]
  show 2 < |3 * Real.cos (Real.pi / 8) - Real.cos (3 * Real.pi / 8)|
  rw [lt_abs]
  left
  linarith

/-- Claim C6 (amended): with the second driver's angles `a1 = 3π/4`, `b1 = π/2`, `a2 = π/4`,
`b2 = 0`, the four trial correlations are `cor1 = √2/2`, `cor2 = -√2/2`, `cor3 = √2/2`,
`cor4 = √2/2`, and therefore `S = cor1 - cor2 + cor3 + cor4 = 2√2`, a violation
(`|S| > 2`). -/
theorem C6_second_driver_values :
    lk_BI.main.cor1 = Real.sqrt 2 / 2
    ∧ lk_BI.main.cor2 = -(Real.sqrt 2 / 2)
    ∧ lk_BI.main.cor3 = Real.sqrt 2 / 2
    ∧ lk_BI.main.cor4 = Real.sqrt 2 / 2
    ∧ lk_BI.main.S = lk_BI.main.cor1 - lk_BI.main.cor2 + lk_BI.main.cor3 + lk_BI.main.cor4
    ∧ lk_BI.main.S = 2 * Real.sqrt 2
    ∧ 2 < |lk_BI.main.S| := by
  have s2 := sqrt_two_bounds
  rw [lk_BI_main_eq]
  refine ⟨rfl, rfl, rfl, rfl, ?_, rfl, ?_⟩
  · show 2 * Real.sqrt 2
      = Real.sqrt 2 / 2 - -(Real.sqrt 2 / 2) + Real.sqrt 2 / 2 + Real.sqrt 2 / 2
    ring
  · show 2 < |2 * Real.sqrt 2|
    rw [lt_abs]
    left
    linarith

/-- Claim C6 as stated fails: in the second driver none of the four correlations is 0, `S`
is not 0, and `|S| ≤ 2` does not hold. -/
theorem C6_all_zero_counterexample :
    lk_BI.main.cor1 ≠ 0 ∧ lk_BI.main.cor2 ≠ 0 ∧ lk_BI.main.cor3 ≠ 0 ∧ lk_BI.main.cor4 ≠ 0
    ∧ lk_BI.main.S ≠ 0 ∧ ¬ |lk_BI.main.S| ≤ 2 := by
  have s2 := sqrt_two_bounds
  rw [lk_BI_main_eq]
  refine ⟨?_, ?_, ?_, ?_, ?_, ?_⟩
  · intro hEq
    simp only at hEq
    linarith
  · intro hEq
    simp only at hEq
    linarith
  · intro hEq
    simp only at hEq
    linarith
  · intro hEq
    simp only at hEq
    linarith
  · intro hEq
    simp only at hEq
    linarith
  · intro hLe
    have h := (abs_le.1 hLe).2
    simp only at h
    linarith

/-- Claim C7: for every probability map of two queried labels whose entries are non-negative
and sum to at most 1, `getCor` returns a value `r` with `-1 ≤ r ≤ 1`. -/
theorem C7_getCor_bound (l0 l1 : QssIndex) (p0 p1 : ℝ) (h0 : 0 ≤ p0) (h1 : 0 ≤ p1)
    (hsum : p0 + p1 ≤ 1) :
    -1 ≤ lk_4Qubit.getCor [(l0, p0), (l1, p1)] ∧ lk_4Qubit.getCor [(l0, p0), (l1, p1)] ≤ 1 := by
  apply getCor_bound_of_total
  · intro e he
    simp only [List.mem_cons, List.mem_singleton, List.not_mem_nil, or_false] at he
    rcases he with rfl | rfl
    · exact h0
    · exact h1
  · simpa using hsum

/-- Witness of C7 at the map `|00> ↦ 1/2`, `|11> ↦ 1/4`. -/
theorem C7_getCor_bound_witness :
    (0 : ℝ) ≤ 1 / 2 ∧ (0 : ℝ) ≤ 1 / 4 ∧ (1 / 2 + 1 / 4 : ℝ) ≤ 1
    ∧ -1 ≤ lk_4Qubit.getCor [(lk_4Qubit.state_a, 1 / 2), (lk_4Qubit.state_b, 1 / 4)]
    ∧ lk_4Qubit.getCor [(lk_4Qubit.state_a, 1 / 2), (lk_4Qubit.state_b, 1 / 4)] ≤ 1 :=
  ⟨by norm_num, by norm_num, by norm_num,
    C7_getCor_bound lk_4Qubit.state_a lk_4Qubit.state_b (1 / 2) (1 / 4) (by norm_num)
      (by norm_num) (by norm_num)⟩

/-- Claim C8: for every state vector whose squared magnitudes sum to 1 and every angle,
each gate used by `gates` (Hadamard on qubit 0, CNOT with control 0 and target 1, RY on
qubit 0, RY on qubit 1) yields a state whose squared magnitudes sum to 1; and the sum is 1
after the reset and after every step of `gates(θ_a, θ_b)`. -/
theorem C8_normalization (ψ : StateVector) (θ θa θb : ℝ) (h : totalProbability ψ = 1) :
    (totalProbability (H 0 ψ) = 1
      ∧ totalProbability (CNOT 0 1 ψ) = 1
      ∧ totalProbability (RY 0 θ ψ) = 1
      ∧ totalProbability (RY 1 θ ψ) = 1)
    ∧ (totalProbability (lk_4Qubit.prepare_all ψ) = 1
      ∧ totalProbability (H 0 (lk_4Qubit.prepare_all ψ)) = 1
      ∧ totalProbability (CNOT 0 1 (H 0 (lk_4Qubit.prepare_all ψ))) = 1
      ∧ totalProbability (RY 0 θa (CNOT 0 1 (H 0 (lk_4Qubit.prepare_all ψ)))) = 1
      ∧ totalProbability (lk_4Qubit.gates θa θb (lk_4Qubit.prepare_all ψ)) = 1) := by
  have hr : totalProbability (lk_4Qubit.prepare_all ψ) = 1 := totalProbability_reset
  refine ⟨⟨?_, ?_, ?_, ?_⟩, hr, ?_, ?_, ?_, ?_⟩
  · rw [totalProbability_H, h]
  · rw [totalProbability_CNOT_zero_one, h]
  · rw [totalProbability_RY, h]
  · rw [totalProbability_RY, h]
  · rw [totalProbability_H, hr]
  · rw [totalProbability_CNOT_zero_one, totalProbability_H, hr]
  · rw [totalProbability_RY, totalProbability_CNOT_zero_one, totalProbability_H, hr]
  · show totalProbability (RY 1 θb (RY 0 θa (CNOT 0 1 (H 0 (lk_4Qubit.prepare_all ψ))))) = 1
    rw [totalProbability_RY, totalProbability_RY, totalProbability_CNOT_zero_one,
      totalProbability_H, hr]

/-- Witness of C8 at the state with amplitude `3/5` on `|00>` and `4i/5` on `|11>`, and the
angles `1`, `2`, `3`. -/
theorem C8_normalization_witness :
    totalProbability ![3 / 5, 0, 0, 4 / 5 * Complex.I] = 1
    ∧ totalProbability (H 0 ![3 / 5, 0, 0, 4 / 5 * Complex.I]) = 1
    ∧ totalProbability (CNOT 0 1 ![3 / 5, 0, 0, 4 / 5 * Complex.I]) = 1
    ∧ totalProbability (RY 0 1 ![3 / 5, 0, 0, 4 / 5 * Complex.I]) = 1
    ∧ totalProbability (RY 1 1 ![3 / 5, 0, 0, 4 / 5 * Complex.I]) = 1
    ∧ totalProbability
        (lk_4Qubit.gates 2 3 (lk_4Qubit.prepare_all ![3 / 5, 0, 0, 4 / 5 * Complex.I])) = 1 := by
  have h : totalProbability ![3 / 5, 0, 0, 4 / 5 * Complex.I] = 1 := by
    simp [totalProbability_eq, Complex.normSq_apply]
    norm_num
  have t := C8_normalization ![3 / 5, 0, 0, 4 / 5 * Complex.I] 1 2 3 h
  exact ⟨h, t.1.1, t.1.2.1, t.1.2.2.1, t.1.2.2.2, t.2.2.2.2.2⟩

/-- Claim C9: for every state vector, applying the Hadamard gate twice to the same qubit
returns exactly the original state vector, and applying CNOT twice with the same control
and target (control 0, target 1 as in `gates`, or control 1, target 0) returns exactly the
original state vector. -/
theorem C9_unitarity_round_trip (ψ : StateVector) (k : Fin 2) :
    H k (H k ψ) = ψ ∧ CNOT 0 1 (CNOT 0 1 ψ) = ψ ∧ CNOT 1 0 (CNOT 1 0 ψ) = ψ := by
  refine ⟨?_, CNOT_CNOT_zero_one ψ, CNOT_CNOT_one_zero ψ⟩
  fin_cases k
  · exact H_H_zero ψ
  · exact H_H_one ψ

/-- Claim C10: for every choice of four real angles `a1`, `b1`, `a2`, `b2`, the statistic
`S = cor1 - cor2 + cor3 + cor4` that the driver computes from the trials `gates(a1,b1)`,
`gates(a1,b2)`, `gates(a2,b1)`, `gates(a2,b2)` satisfies `|S| ≤ 2√2`. -/
theorem C10_tsirelson_bound (a1 b1 a2 b2 : ℝ) :
    (lk_4Qubit.trials a1 b1 a2 b2).S
        = (lk_4Qubit.trials a1 b1 a2 b2).cor1 - (lk_4Qubit.trials a1 b1 a2 b2).cor2
          + (lk_4Qubit.trials a1 b1 a2 b2).cor3 + (lk_4Qubit.trials a1 b1 a2 b2).cor4
    ∧ |(lk_4Qubit.trials a1 b1 a2 b2).S| ≤ 2 * Real.sqrt 2
    ∧ |(lk_BI.trials a1 b1 a2 b2).S| ≤ 2 * Real.sqrt 2 := by
  refine ⟨rfl, ?_, ?_⟩
  · rw [lk_4Qubit_trials_eq]
    exact chsh_cos_bound a1 b1 a2 b2
  · rw [lk_BI_trials_eq]
    exact chsh_cos_bound a1 b1 a2 b2

end BIQuantumCircuit
